import Mathlib

/-!
Verification of the bullmq-gcp job-queue service against its specification.

The repository is a thin HTTP layer over a job-queue engine.  The queue
configurations, the worker handlers and the HTTP route handlers are embedded
from the TypeScript sources (`src/queues/index.ts`, `src/index.ts`,
`src/server.ts`).  The queue engine itself (job store, scheduler, retry and
backoff policy, cleanup) lives in the external library the repository depends
on; those parts are modelled from the specification, and each such definition
is marked `Modelled from the spec:` in its doc comment.
-/

namespace Bullmq

/-! ## Data model -/

/-- Lifecycle states of a job (spec section 3). -/
inductive JobState where
  | Waiting
  | Delayed
  | Active
  | Completed
  | Failed
deriving DecidableEq, Repr

/-- Backoff policy kind (spec section 3: `{type: fixed|exponential, baseDelay}`). -/
inductive BackoffType where
  | fixed
  | exponential
deriving DecidableEq, Repr

/-- Backoff policy descriptor. -/
structure Backoff where
  type : BackoffType
  baseDelay : Nat
deriving DecidableEq, Repr

/-- Per-queue default job options, embedded from the `new Queue(...)`
constructor calls in `src/queues/index.ts`: an optional `attempts` ceiling and
an optional backoff descriptor. -/
structure QueueConfig where
  attempts : Option Nat
  backoff : Option Backoff
deriving DecidableEq, Repr

/-- The hello queue (`src/queues/index.ts`): no default job options. -/
def helloQueue : QueueConfig := { attempts := none, backoff := none }

/-- The email queue (`src/queues/index.ts`): no default job options. -/
def emailQueue : QueueConfig := { attempts := none, backoff := none }

/-- The image queue (`src/queues/index.ts`): no default job options. -/
def imageQueue : QueueConfig := { attempts := none, backoff := none }

/-- The critical queue (`src/queues/index.ts`): `attempts: 3` with
exponential backoff of base delay 2000ms. -/
def criticalQueue : QueueConfig :=
  { attempts := some 3
    backoff := some { type := BackoffType.exponential, baseDelay := 2000 } }

/-! ## Worker handlers for the critical queue

`src/src/index.ts` contains two critical-queue worker handler variants: the
combined-file worker (lines 140-161) throws while `job.attemptsMade < 4`, the
workers-file variant (lines 672-695) throws while `job.attemptsMade < 2`.
Both otherwise return a result built from the job data and the attempt count.
-/

/-- Outcome of one handler invocation: a returned value or a thrown error. -/
inductive HandlerResult where
  | ok (task : String) (completedAfterAttempts : Nat)
  | thrown (message : String)
deriving DecidableEq, Repr

/-- True when the handler returned normally. -/
def HandlerResult.isOk : HandlerResult → Bool
  | .ok _ _ => true
  | .thrown _ => false

/-- Critical-queue handler, combined-file variant (`src/src/index.ts`
lines 140-161): throws exactly while `attemptsMade < 4`. -/
def criticalHandlerCombined (attemptsMade : Nat) (task : String) : HandlerResult :=
  if attemptsMade < 4 then
    .thrown ("Temporary failure (attempt " ++ toString (attemptsMade + 1) ++ ")")
  else
    .ok task (attemptsMade + 1)

/-- Critical-queue handler, workers-file variant (`src/src/index.ts`
lines 672-695): throws exactly while `attemptsMade < 2`. -/
def criticalHandlerWorkers (attemptsMade : Nat) (task : String) : HandlerResult :=
  if attemptsMade < 2 then
    .thrown ("Temporary failure (attempt " ++ toString (attemptsMade + 1) ++ ")")
  else
    .ok task (attemptsMade + 1)

/-! ## Email priority mapping -/

/-- Priority mapping of the `POST /jobs/email` handler (`src/src/server.ts`
lines 88-108): the request's `priority` field defaults to `"normal"` when
absent, then maps `"high"` to 1, `"normal"` to 5, anything else to 10. -/
def emailPriority (priority : Option String) : Nat :=
  let p := priority.getD "normal"
  if p = "high" then 1 else if p = "normal" then 5 else 10

/-! ## Retry / backoff policy engine

The engine itself is the external queue library; these definitions are
modelled from spec sections 4.2 and 4.5.
-/

/-- Modelled from the spec: every queue must declare `maxAttempts`
(default 1, i.e. no retry); the stored value comes from the queue's
`attempts` default job option. -/
def effectiveMaxAttempts (cfg : QueueConfig) : Nat := cfg.attempts.getD 1

/-- Modelled from the spec: the backoff function, mapping the post-increment
attempt count to a re-delay; `fixed` gives `baseDelay`, `exponential` gives
`baseDelay * 2 ^ (attemptsMade - 1)`. -/
def backoffDelay (b : Backoff) (attemptsMade : Nat) : Nat :=
  match b.type with
  | .fixed => b.baseDelay
  | .exponential => b.baseDelay * 2 ^ (attemptsMade - 1)

/-- Decision of the retry policy engine on a failure. -/
inductive FailureDecision where
  | requeue (delay : Nat)
  | terminate
deriving DecidableEq, Repr

/-- Modelled from the spec: `onFailure` increments `attemptsMade`; if the
incremented count reaches `maxAttempts` the job is terminated, otherwise it is
requeued with the backoff delay computed at the incremented count. -/
def onFailure (maxAttempts : Nat) (b : Backoff) (attemptsMade : Nat) : FailureDecision :=
  let made := attemptsMade + 1
  if maxAttempts ≤ made then .terminate else .requeue (backoffDelay b made)

/-! ## Jobs and the per-job transition system -/

/-- A job record (spec section 3); the payload is opaque and plays no part in
scheduling or retry, so it is omitted. -/
structure Job where
  id : Nat
  priority : Nat
  availableAt : Nat
  attemptsMade : Nat
  maxAttempts : Nat
  backoff : Backoff
  state : JobState
  createdAt : Nat
  finishedAt : Nat
deriving DecidableEq, Repr

/-- Modelled from the spec: initial state on insert is `Waiting` if
`availableAt ≤ now`, else `Delayed`. -/
def initialState (availableAt now : Nat) : JobState :=
  if availableAt ≤ now then .Waiting else .Delayed

/-- Modelled from the spec: enqueue builds a fresh job with
`availableAt = now + delayMs`, zero attempts made, and the queue
configuration's attempt ceiling and backoff policy. -/
def enqueue (cfg : QueueConfig) (now delayMs priority id : Nat) : Job :=
  { id := id
    priority := priority
    availableAt := now + delayMs
    attemptsMade := 0
    maxAttempts := effectiveMaxAttempts cfg
    backoff := cfg.backoff.getD { type := BackoffType.fixed, baseDelay := 0 }
    state := initialState (now + delayMs) now
    createdAt := now
    finishedAt := 0 }

/-- Modelled from the spec: the effect of a handler failure on a job, routed
through `onFailure`: terminate moves the job to `Failed`; requeue moves it to
`Delayed` with `availableAt = now + delay`.  Both record the incremented
attempt count. -/
def applyFailure (now : Nat) (j : Job) : Job :=
  match onFailure j.maxAttempts j.backoff j.attemptsMade with
  | .terminate =>
      { j with state := .Failed, attemptsMade := j.attemptsMade + 1, finishedAt := now }
  | .requeue d =>
      { j with state := .Delayed, attemptsMade := j.attemptsMade + 1, availableAt := now + d }

/-- Observable state of the engine restricted to one job: the clock, the
queue-level pause flag and the job record. -/
structure Sys where
  now : Nat
  paused : Bool
  job : Job
deriving DecidableEq, Repr

/-- Modelled from the spec: one step of the engine as seen by a single job.
Time only moves forward; the scheduler promotes a due `Delayed` job to
`Waiting`; the dispatcher claims a `Waiting` job when the queue is not paused;
the executor completes or fails an `Active` job, failures going through the
retry policy engine. -/
inductive Step : Sys → Sys → Prop where
  | tick (s : Sys) (t : Nat) : s.now ≤ t → Step s { s with now := t }
  | pauseGate (s : Sys) : Step s { s with paused := true }
  | resumeGate (s : Sys) : Step s { s with paused := false }
  | promote (s : Sys) : s.job.state = .Delayed → s.job.availableAt ≤ s.now →
      Step s { s with job := { s.job with state := .Waiting } }
  | dispatch (s : Sys) : s.paused = false → s.job.state = .Waiting →
      Step s { s with job := { s.job with state := .Active } }
  | complete (s : Sys) : s.job.state = .Active →
      Step s { s with job := { s.job with state := .Completed, finishedAt := s.now } }
  | failure (s : Sys) : s.job.state = .Active →
      Step s { s with job := applyFailure s.now s.job }

/-- Reachability: the reflexive-transitive closure of `Step`. -/
def Reaches (s t : Sys) : Prop := Relation.ReflTransGen Step s t

/-! ## Invariants of the transition system -/

/-- Bound linking a job's state to its attempt counters: a non-terminal job
is strictly below its attempt ceiling, a `Failed` job sits exactly at it. -/
def attemptsOk : JobState → Nat → Nat → Prop
  | .Waiting, made, cap => made < cap
  | .Delayed, made, cap => made < cap
  | .Active, made, cap => made < cap
  | .Completed, made, cap => made ≤ cap
  | .Failed, made, cap => made = cap

/-- Attempt-count invariant of a job record. -/
def AttemptsInv (j : Job) : Prop := attemptsOk j.state j.attemptsMade j.maxAttempts

theorem attemptsInv_step {s t : Sys} (h : Step s t) (hi : AttemptsInv s.job) :
    AttemptsInv t.job := by
  cases h with
  | tick u hu => exact hi
  | pauseGate => exact hi
  | resumeGate => exact hi
  | promote hd hav =>
      simp only [AttemptsInv, attemptsOk, hd] at hi
      simpa [AttemptsInv, attemptsOk] using hi
  | dispatch hp hw =>
      simp only [AttemptsInv, attemptsOk, hw] at hi
      simpa [AttemptsInv, attemptsOk] using hi
  | complete ha =>
      simp only [AttemptsInv, attemptsOk, ha] at hi
      simp only [AttemptsInv, attemptsOk]
      omega
  | failure ha =>
      have hlt : s.job.attemptsMade < s.job.maxAttempts := by
        simpa [AttemptsInv, attemptsOk, ha] using hi
      show AttemptsInv (applyFailure s.now s.job)
      by_cases hc : s.job.maxAttempts ≤ s.job.attemptsMade + 1
      · simp [AttemptsInv, attemptsOk, applyFailure, onFailure, hc]
        omega
      · simp [AttemptsInv, attemptsOk, applyFailure, onFailure, hc]
        omega

/-- Delay-observation invariant: before the deadline the job can only be
`Delayed`, and then its availability is still at or beyond the deadline. -/
def DelayInv (deadline : Nat) (s : Sys) : Prop :=
  (s.job.state = .Delayed → deadline ≤ s.now ∨ deadline ≤ s.job.availableAt) ∧
  (s.job.state ≠ .Delayed → deadline ≤ s.now)

theorem delayInv_step {d : Nat} {s t : Sys} (h : Step s t) (hi : DelayInv d s) :
    DelayInv d t := by
  obtain ⟨h1, h2⟩ := hi
  cases h with
  | tick u hu =>
      refine ⟨fun hd => ?_, fun hd => le_trans (h2 hd) hu⟩
      rcases h1 hd with hl | hr
      · exact Or.inl (le_trans hl hu)
      · exact Or.inr hr
  | pauseGate => exact ⟨h1, h2⟩
  | resumeGate => exact ⟨h1, h2⟩
  | promote hd hav =>
      have hnow : d ≤ s.now := by
        rcases h1 hd with hl | hr
        · exact hl
        · exact le_trans hr hav
      exact ⟨fun _ => Or.inl hnow, fun _ => hnow⟩
  | dispatch hp hw =>
      have hnow : d ≤ s.now := h2 (by rw [hw]; decide)
      exact ⟨fun _ => Or.inl hnow, fun _ => hnow⟩
  | complete ha =>
      have hnow : d ≤ s.now := h2 (by rw [ha]; decide)
      exact ⟨fun _ => Or.inl hnow, fun _ => hnow⟩
  | failure ha =>
      have hnow : d ≤ s.now := h2 (by rw [ha]; decide)
      exact ⟨fun _ => Or.inl hnow, fun _ => hnow⟩

/-- A `Failed` job is terminal: no step changes it. -/
theorem step_from_failed {s t : Sys} (h : Step s t) (hf : s.job.state = .Failed) :
    t.job = s.job := by
  cases h with
  | tick u hu => rfl
  | pauseGate => rfl
  | resumeGate => rfl
  | promote hd hav => rw [hf] at hd; exact absurd hd (by decide)
  | dispatch hp hw => rw [hf] at hw; exact absurd hw (by decide)
  | complete ha => rw [hf] at ha; exact absurd ha (by decide)
  | failure ha => rw [hf] at ha; exact absurd ha (by decide)

/-- Inversion for steps out of `Active`: the job is untouched, completed, or
routed through the retry policy engine — there is no other exit. -/
theorem step_from_active {s t : Sys} (h : Step s t) (ha : s.job.state = .Active) :
    t.job = s.job ∨
    t.job = { s.job with state := .Completed, finishedAt := s.now } ∨
    t.job = applyFailure s.now s.job := by
  cases h with
  | tick u hu => exact Or.inl rfl
  | pauseGate => exact Or.inl rfl
  | resumeGate => exact Or.inl rfl
  | promote hd hav => rw [ha] at hd; exact absurd hd (by decide)
  | dispatch hp hw => rw [ha] at hw; exact absurd hw (by decide)
  | complete hact => exact Or.inr (Or.inl rfl)
  | failure hact => exact Or.inr (Or.inr rfl)

/-! ## Claim theorems -/

/-- C1: under the critical-queue configuration (maxAttempts 3, exponential
backoff with base delay 2000ms), a failure on attempt `n` with `n < 3`
requeues the job with delay `2000 * 2 ^ (n - 1)` — 2000ms after attempt 1,
4000ms after attempt 2 — transitioning it `Active → Delayed` with
`availableAt = now + delay`; the third failure reaches `Failed` with
`attemptsMade = 3`, and a `Failed` job is never requeued again. -/
theorem c1_critical_backoff (s : Sys)
    (hb : s.job.backoff = { type := BackoffType.exponential, baseDelay := 2000 })
    (hm : s.job.maxAttempts = effectiveMaxAttempts criticalQueue)
    (ha : s.job.state = .Active) :
    effectiveMaxAttempts criticalQueue = 3 ∧
    (s.job.attemptsMade + 1 < 3 →
      Step s { s with job := applyFailure s.now s.job } ∧
      (applyFailure s.now s.job).state = .Delayed ∧
      (applyFailure s.now s.job).attemptsMade = s.job.attemptsMade + 1 ∧
      (applyFailure s.now s.job).availableAt =
        s.now + 2000 * 2 ^ (s.job.attemptsMade + 1 - 1)) ∧
    onFailure 3 { type := BackoffType.exponential, baseDelay := 2000 } 0 = .requeue 2000 ∧
    onFailure 3 { type := BackoffType.exponential, baseDelay := 2000 } 1 = .requeue 4000 ∧
    (s.job.attemptsMade + 1 = 3 →
      (applyFailure s.now s.job).state = .Failed ∧
      (applyFailure s.now s.job).attemptsMade = 3) ∧
    (∀ t u : Sys, Step t u → t.job.state = .Failed → u.job = t.job) := by
  have hm3 : s.job.maxAttempts = 3 := by
    simpa [effectiveMaxAttempts, criticalQueue] using hm
  refine ⟨rfl, ?_, by decide, by decide, ?_, ?_⟩
  · intro h2
    have hcond : ¬ (3 ≤ s.job.attemptsMade + 1) := Nat.not_le.mpr h2
    refine ⟨Step.failure s ha, ?_, ?_, ?_⟩ <;>
      simp [applyFailure, onFailure, backoffDelay, hb, hm3, hcond]
  · intro h3
    constructor <;> simp [applyFailure, onFailure, hm3, h3]
  · intro t u h hf
    exact step_from_failed h hf

/-- Witness for C1: a concrete active job with the critical-queue policy on
its first failure is re-delayed by exactly 2000ms. -/
def sampleCriticalSys : Sys :=
  { now := 100
    paused := false
    job :=
      { id := 1
        priority := 0
        availableAt := 0
        attemptsMade := 0
        maxAttempts := 3
        backoff := { type := BackoffType.exponential, baseDelay := 2000 }
        state := .Active
        createdAt := 0
        finishedAt := 0 } }

theorem c1_critical_backoff_witness :
    sampleCriticalSys.job.backoff = { type := BackoffType.exponential, baseDelay := 2000 } ∧
    sampleCriticalSys.job.maxAttempts = effectiveMaxAttempts criticalQueue ∧
    sampleCriticalSys.job.state = .Active ∧
    (applyFailure sampleCriticalSys.now sampleCriticalSys.job).state = .Delayed ∧
    (applyFailure sampleCriticalSys.now sampleCriticalSys.job).availableAt = 100 + 2000 := by
  have h := c1_critical_backoff sampleCriticalSys rfl rfl rfl
  have h2 := h.2.1 (by decide)
  exact ⟨rfl, rfl, rfl, h2.2.1, by simpa using h2.2.2.2⟩

/-- C2: for every job enqueued on a queue whose attempt ceiling is at least
one, every reachable engine state satisfies `attemptsMade ≤ maxAttempts`, and
a `Failed` job has `attemptsMade = maxAttempts`. -/
theorem c2_attempts_within_ceiling (cfg : QueueConfig) (now0 delayMs priority id : Nat)
    (hma : 1 ≤ effectiveMaxAttempts cfg) (s : Sys)
    (hr : Reaches { now := now0, paused := false, job := enqueue cfg now0 delayMs priority id } s) :
    s.job.attemptsMade ≤ s.job.maxAttempts ∧
      (s.job.state = .Failed → s.job.attemptsMade = s.job.maxAttempts) := by
  have hinv : AttemptsInv s.job := by
    induction hr with
    | refl =>
        show AttemptsInv (enqueue cfg now0 delayMs priority id)
        by_cases h : now0 + delayMs ≤ now0 <;>
          simp [AttemptsInv, attemptsOk, enqueue, initialState, h] <;> omega
    | tail hab hbc ih => exact attemptsInv_step hbc ih
  constructor
  · cases hst : s.job.state <;> simp only [AttemptsInv, attemptsOk, hst] at hinv <;> omega
  · intro hf
    simpa only [AttemptsInv, attemptsOk, hf] using hinv

theorem c2_attempts_within_ceiling_witness :
    1 ≤ effectiveMaxAttempts criticalQueue ∧
    ((enqueue criticalQueue 0 0 5 1).attemptsMade ≤ (enqueue criticalQueue 0 0 5 1).maxAttempts ∧
      ((enqueue criticalQueue 0 0 5 1).state = .Failed →
        (enqueue criticalQueue 0 0 5 1).attemptsMade = (enqueue criticalQueue 0 0 5 1).maxAttempts)) :=
  ⟨by decide,
    c2_attempts_within_ceiling criticalQueue 0 0 5 1 (by decide)
      { now := 0, paused := false, job := enqueue criticalQueue 0 0 5 1 }
      Relation.ReflTransGen.refl⟩

/-- C4: an enqueue with positive delay always creates a `Delayed` job; the
initial state on insert is `Waiting` exactly when `availableAt ≤ now`; and a
job enqueued with a delay is never observed `Waiting` at any reachable state
whose clock is before `createdAt + delayMs`. -/
theorem c4_delayed_never_early (now0 delayMs : Nat) :
    (0 < delayMs → initialState (now0 + delayMs) now0 = .Delayed) ∧
    (∀ availableAt now : Nat, (initialState availableAt now = .Waiting ↔ availableAt ≤ now)) ∧
    (∀ (cfg : QueueConfig) (priority id : Nat) (s : Sys),
      Reaches { now := now0, paused := false, job := enqueue cfg now0 delayMs priority id } s →
      s.job.state = .Waiting → now0 + delayMs ≤ s.now) := by
  refine ⟨?_, ?_, ?_⟩
  · intro hd
    have h : ¬ (now0 + delayMs ≤ now0) := by omega
    simp [initialState, h]
  · intro av n
    by_cases h : av ≤ n <;> simp [initialState, h]
  · intro cfg priority id s hr
    have hinv : DelayInv (now0 + delayMs) s := by
      induction hr with
      | refl =>
          constructor
          · intro _
            exact Or.inr (by simp [enqueue])
          · intro hnd
            by_cases h : now0 + delayMs ≤ now0
            · exact h
            · exact absurd (by simp [enqueue, initialState, h]) hnd
      | tail hab hbc ih => exact delayInv_step hbc ih
    intro hw
    exact hinv.2 (by rw [hw]; decide)

theorem c4_delayed_never_early_witness :
    (0 < 5000 ∧ initialState (0 + 5000) 0 = .Delayed) ∧
    (initialState 20 10 = .Waiting ↔ 20 ≤ 10) ∧
    (0 + 5000 ≤ 5000) := by
  have h := c4_delayed_never_early 0 5000
  refine ⟨⟨by decide, h.1 (by decide)⟩, h.2.1 20 10, ?_⟩
  have hstep1 :
      Step { now := 0, paused := false, job := enqueue helloQueue 0 5000 0 1 }
        { now := 5000, paused := false, job := enqueue helloQueue 0 5000 0 1 } :=
    Step.tick _ 5000 (by decide)
  have hstep2 :
      Step { now := 5000, paused := false, job := enqueue helloQueue 0 5000 0 1 }
        { now := 5000, paused := false,
          job := { enqueue helloQueue 0 5000 0 1 with state := .Waiting } } :=
    Step.promote _ (by decide) (by decide)
  exact h.2.2 helloQueue 0 1 _
    (Relation.ReflTransGen.tail (Relation.ReflTransGen.single hstep1) hstep2) (by decide)

/-- C9: the hello, email and image queues declare no attempt ceiling, so it
defaults to 1 (no retry); a job with that default moving through a failure is
terminated to `Failed` with no requeue decision available; and the retry
engine is the only exit from `Active` besides completion or staying put. -/
theorem c9_default_single_failure_terminal :
    effectiveMaxAttempts helloQueue = 1 ∧
    effectiveMaxAttempts emailQueue = 1 ∧
    effectiveMaxAttempts imageQueue = 1 ∧
    (∀ (j : Job) (now : Nat), j.maxAttempts = 1 → j.attemptsMade = 0 →
      (applyFailure now j).state = .Failed ∧
      ∀ d, onFailure j.maxAttempts j.backoff j.attemptsMade ≠ .requeue d) ∧
    (∀ s t : Sys, Step s t → s.job.state = .Active →
      t.job = s.job ∨
      t.job = { s.job with state := .Completed, finishedAt := s.now } ∨
      t.job = applyFailure s.now s.job) := by
  refine ⟨rfl, rfl, rfl, ?_, ?_⟩
  · intro j now h1 h0
    constructor
    · simp [applyFailure, onFailure, h1, h0]
    · intro d
      simp [onFailure, h1, h0]
  · intro s t h ha
    exact step_from_active h ha

/-- Witness for C9: a concrete default-queue job fails once and is `Failed`. -/
def sampleDefaultJob : Job :=
  { id := 2
    priority := 0
    availableAt := 0
    attemptsMade := 0
    maxAttempts := effectiveMaxAttempts helloQueue
    backoff := { type := BackoffType.fixed, baseDelay := 0 }
    state := .Active
    createdAt := 0
    finishedAt := 0 }

theorem c9_default_single_failure_terminal_witness :
    (sampleDefaultJob.maxAttempts = 1 ∧ sampleDefaultJob.attemptsMade = 0) ∧
    (applyFailure 7 sampleDefaultJob).state = .Failed ∧
    onFailure sampleDefaultJob.maxAttempts sampleDefaultJob.backoff
        sampleDefaultJob.attemptsMade ≠ .requeue 0 :=
  ⟨⟨rfl, rfl⟩,
    (c9_default_single_failure_terminal.2.2.2.1 sampleDefaultJob 7 rfl rfl).1,
    (c9_default_single_failure_terminal.2.2.2.1 sampleDefaultJob 7 rfl rfl).2 0⟩

/-- C3: the two critical-queue worker handler variants in `src/src/index.ts`
disagree: the workers-file variant throws exactly while `attemptsMade < 2`
(so the third attempt, `attemptsMade = 2`, returns successfully), the
combined-file variant throws exactly while `attemptsMade < 4` (so it never
succeeds below attempt 5); at `attemptsMade = 2` with the same data the two
handlers produce different results. -/
theorem c3_critical_handler_inconsistency :
    (∀ (n : Nat) (task : String), ((criticalHandlerWorkers n task).isOk = true ↔ 2 ≤ n)) ∧
    (∀ (n : Nat) (task : String), ((criticalHandlerCombined n task).isOk = true ↔ 4 ≤ n)) ∧
    (criticalHandlerWorkers 2 "t").isOk = true ∧
    (criticalHandlerCombined 2 "t").isOk = false ∧
    (criticalHandlerCombined 3 "t").isOk = false ∧
    (criticalHandlerCombined 4 "t").isOk = true ∧
    criticalHandlerCombined 2 "t" ≠ criticalHandlerWorkers 2 "t" := by
  refine ⟨?_, ?_, by decide, by decide, by decide, by decide, by decide⟩
  · intro n task
    by_cases h : n < 2 <;> simp [criticalHandlerWorkers, HandlerResult.isOk, h] <;> omega
  · intro n task
    by_cases h : n < 4 <;> simp [criticalHandlerCombined, HandlerResult.isOk, h] <;> omega

/-- C10: the priority assigned by the email route is 1 for `"high"`, 5 for
`"normal"` and for an absent field, and 10 for every other value. -/
theorem c10_email_priority_mapping :
    emailPriority (some "high") = 1 ∧
    emailPriority (some "normal") = 5 ∧
    emailPriority none = 5 ∧
    (∀ s : String, s ≠ "high" → s ≠ "normal" → emailPriority (some s) = 10) := by
  refine ⟨by decide, by decide, by decide, ?_⟩
  intro s h1 h2
  simp [emailPriority, h1, h2]

theorem c10_email_priority_mapping_witness :
    ("low" ≠ "high" ∧ "low" ≠ "normal") ∧ emailPriority (some "low") = 10 :=
  ⟨⟨by decide, by decide⟩,
    c10_email_priority_mapping.2.2.2 "low" (by decide) (by decide)⟩

/-! ## Queue-level control state and the HTTP control routes -/

/-- Observable state of one queue: its dispatch gate and its job list. -/
structure QueueState where
  paused : Bool
  jobs : List Job
deriving DecidableEq, Repr

/-- The four known queues of the route handlers. -/
inductive QueueName where
  | hello
  | email
  | image
  | critical
deriving DecidableEq, Repr

/-- Observable state of all four queues. -/
structure ServerState where
  hello : QueueState
  email : QueueState
  image : QueueState
  critical : QueueState
deriving DecidableEq, Repr

/-- Name lookup of the control route handlers (`src/src/server.ts`): the
`queueMap` object literal keyed by `hello`, `email`, `image`, `critical`;
any other name misses. -/
def queueMap (name : String) : Option QueueName :=
  if name = "hello" then some QueueName.hello
  else if name = "email" then some QueueName.email
  else if name = "image" then some QueueName.image
  else if name = "critical" then some QueueName.critical
  else none

def getQueue : QueueName → ServerState → QueueState
  | .hello, s => s.hello
  | .email, s => s.email
  | .image, s => s.image
  | .critical, s => s.critical

def setQueue : QueueName → QueueState → ServerState → ServerState
  | .hello, q, s => { s with hello := q }
  | .email, q, s => { s with email := q }
  | .image, q, s => { s with image := q }
  | .critical, q, s => { s with critical := q }

/-- Modelled from the spec: `pauseQueue` sets the queue-level dispatch gate,
affecting nothing else. -/
def pauseQueue (q : QueueState) : QueueState := { q with paused := true }

/-- Modelled from the spec: `resumeQueue` clears the queue-level dispatch
gate, affecting nothing else. -/
def resumeQueue (q : QueueState) : QueueState := { q with paused := false }

/-- Modelled from the spec: a job is removed by `cleanQueue` when it is in
the targeted terminal state and finished at least `olderThan` milliseconds
before `now`. -/
def matchesClean (target : JobState) (olderThan now : Nat) (j : Job) : Bool :=
  j.state == target && decide (j.finishedAt + olderThan ≤ now)

/-- Modelled from the spec: remove up to `limit` jobs matching the clean
predicate, scanning in order; every other job is kept unchanged. -/
def cleanRun (target : JobState) (olderThan now : Nat) : Nat → List Job → List Job × Nat
  | _, [] => ([], 0)
  | 0, j :: js => (j :: js, 0)
  | limit + 1, j :: js =>
      if matchesClean target olderThan now j then
        let r := cleanRun target olderThan now limit js
        (r.1, r.2 + 1)
      else
        let r := cleanRun target olderThan now (limit + 1) js
        (j :: r.1, r.2)

/-- Modelled from the spec:
`cleanQueue(queue, state, olderThan, limit) -> removedCount`, returning the
surviving queue state together with the removed count. -/
def cleanQueue (target : JobState) (olderThan limit now : Nat) (q : QueueState) :
    QueueState × Nat :=
  let r := cleanRun target olderThan now limit q.jobs
  ({ q with jobs := r.1 }, r.2)

/-- Result of a control route: HTTP status and the resulting server state. -/
structure RouteResult where
  status : Nat
  state : ServerState
deriving DecidableEq, Repr

/-- `POST /queues/:queue/pause` (`src/src/server.ts` lines 207-226): a name
missing from `queueMap` answers 404 before touching any queue; a known name
pauses that queue. -/
def pauseRoute (name : String) (s : ServerState) : RouteResult :=
  match queueMap name with
  | none => { status := 404, state := s }
  | some q => { status := 200, state := setQueue q (pauseQueue (getQueue q s)) s }

/-- `POST /queues/:queue/resume` (`src/src/server.ts` lines 229-248). -/
def resumeRoute (name : String) (s : ServerState) : RouteResult :=
  match queueMap name with
  | none => { status := 404, state := s }
  | some q => { status := 200, state := setQueue q (resumeQueue (getQueue q s)) s }

/-- `DELETE /queues/:queue/clean` (`src/src/server.ts` lines 251-272): a name
missing from `queueMap` answers 404 before touching any queue; a known name
cleans completed then failed jobs with `olderThan = 0`, `limit = 100`. -/
def cleanRoute (name : String) (now : Nat) (s : ServerState) : RouteResult :=
  match queueMap name with
  | none => { status := 404, state := s }
  | some q =>
      let q1 := (cleanQueue .Completed 0 100 now (getQueue q s)).1
      let q2 := (cleanQueue .Failed 0 100 now q1).1
      { status := 200, state := setQueue q q2 s }

/-- C5: pause, resume or clean with a queue name outside the known set answer
HTTP 404 and leave the server state exactly as it was. -/
theorem c5_unknown_queue_not_found (name : String) (now : Nat) (s : ServerState)
    (h : queueMap name = none) :
    pauseRoute name s = { status := 404, state := s } ∧
    resumeRoute name s = { status := 404, state := s } ∧
    cleanRoute name now s = { status := 404, state := s } := by
  refine ⟨?_, ?_, ?_⟩ <;> simp [pauseRoute, resumeRoute, cleanRoute, h]

/-- A queue state with the gate open and no jobs. -/
def emptyQueueState : QueueState := { paused := false, jobs := [] }

/-- A server state with all four queues empty and unpaused. -/
def sampleServer : ServerState :=
  { hello := emptyQueueState
    email := emptyQueueState
    image := emptyQueueState
    critical := emptyQueueState }

theorem c5_unknown_queue_not_found_witness :
    queueMap "payments" = none ∧
    pauseRoute "payments" sampleServer = { status := 404, state := sampleServer } ∧
    resumeRoute "payments" sampleServer = { status := 404, state := sampleServer } ∧
    cleanRoute "payments" 3 sampleServer = { status := 404, state := sampleServer } := by
  have h := c5_unknown_queue_not_found "payments" 3 sampleServer (by decide)
  exact ⟨by decide, h.1, h.2.1, h.2.2⟩

theorem getQueue_setQueue_same (q : QueueName) (x : QueueState) (s : ServerState) :
    getQueue q (setQueue q x s) = x := by
  cases q <;> rfl

theorem setQueue_setQueue_same (q : QueueName) (x y : QueueState) (s : ServerState) :
    setQueue q x (setQueue q y s) = setQueue q x s := by
  cases q <;> rfl

theorem pauseQueue_idem (q : QueueState) : pauseQueue (pauseQueue q) = pauseQueue q := rfl

/-- C8: `pauseQueue` is idempotent, `resumeQueue` on an unpaused queue is a
no-op, and at the route level pausing twice yields the same response and
state as pausing once. -/
theorem c8_pause_idempotent_resume_noop (q : QueueState) :
    pauseQueue (pauseQueue q) = pauseQueue q ∧
    (q.paused = false → resumeQueue q = q) ∧
    (∀ (name : String) (s : ServerState),
      pauseRoute name (pauseRoute name s).state = pauseRoute name s) := by
  refine ⟨rfl, ?_, ?_⟩
  · intro h
    cases q with
    | mk p jobs =>
        simp only [resumeQueue]
        simp only at h
        rw [h]
  · intro name s
    cases hq : queueMap name with
    | none => simp [pauseRoute, hq]
    | some qn =>
        simp [pauseRoute, hq, getQueue_setQueue_same, setQueue_setQueue_same, pauseQueue_idem]

theorem c8_pause_idempotent_resume_noop_witness :
    emptyQueueState.paused = false ∧
    resumeQueue emptyQueueState = emptyQueueState ∧
    pauseQueue (pauseQueue emptyQueueState) = pauseQueue emptyQueueState ∧
    pauseRoute "hello" (pauseRoute "hello" sampleServer).state =
      pauseRoute "hello" sampleServer :=
  ⟨rfl, (c8_pause_idempotent_resume_noop emptyQueueState).2.1 rfl,
    (c8_pause_idempotent_resume_noop emptyQueueState).1,
    (c8_pause_idempotent_resume_noop emptyQueueState).2.2 "hello" sampleServer⟩

/-! ## Exactness of cleanup -/

theorem cleanRun_count (target : JobState) (olderThan now : Nat) :
    ∀ (js : List Job) (limit : Nat),
      (cleanRun target olderThan now limit js).2 =
        min limit (js.countP (matchesClean target olderThan now)) := by
  intro js
  induction js with
  | nil => intro limit; simp [cleanRun]
  | cons j js ih =>
      intro limit
      cases limit with
      | zero => simp [cleanRun]
      | succ l =>
          cases h : matchesClean target olderThan now j with
          | true =>
              simp [cleanRun, h, ih l, List.countP_cons]
              omega
          | false =>
              simp [cleanRun, h, ih (l + 1), List.countP_cons]

theorem cleanRun_filter (target : JobState) (olderThan now : Nat) :
    ∀ (js : List Job) (limit : Nat),
      (cleanRun target olderThan now limit js).1.filter
          (fun k => ! matchesClean target olderThan now k) =
        js.filter (fun k => ! matchesClean target olderThan now k) := by
  intro js
  induction js with
  | nil => intro limit; simp [cleanRun]
  | cons j js ih =>
      intro limit
      cases limit with
      | zero => simp [cleanRun]
      | succ l =>
          cases h : matchesClean target olderThan now j with
          | true => simp [cleanRun, h, ih l, List.filter_cons]
          | false => simp [cleanRun, h, ih (l + 1), List.filter_cons]

theorem cleanRun_mem (target : JobState) (olderThan now : Nat) :
    ∀ (js : List Job) (limit : Nat) (j : Job),
      j ∈ (cleanRun target olderThan now limit js).1 → j ∈ js := by
  intro js
  induction js with
  | nil => intro limit j h; simpa [cleanRun] using h
  | cons k js ih =>
      intro limit j h
      cases limit with
      | zero => simpa [cleanRun] using h
      | succ l =>
          cases hk : matchesClean target olderThan now k with
          | true =>
              rw [cleanRun, if_pos hk] at h
              exact List.mem_cons_of_mem _ (ih l j h)
          | false =>
              rw [cleanRun, if_neg (by simp [hk])] at h
              rcases List.mem_cons.mp h with h | h
              · exact h ▸ List.mem_cons_self _ _
              · exact List.mem_cons_of_mem _ (ih (l + 1) j h)

theorem cleanRun_keeps (target : JobState) (olderThan now : Nat)
    (js : List Job) (limit : Nat) (j : Job) (hj : j ∈ js)
    (hm : matchesClean target olderThan now j = false) :
    j ∈ (cleanRun target olderThan now limit js).1 := by
  have h1 : j ∈ js.filter (fun k => ! matchesClean target olderThan now k) :=
    List.mem_filter.mpr ⟨hj, by simp [hm]⟩
  rw [← cleanRun_filter target olderThan now js limit] at h1
  exact (List.mem_filter.mp h1).1

theorem matchesClean_of_state_ne {target : JobState} {olderThan now : Nat} {j : Job}
    (h : j.state ≠ target) : matchesClean target olderThan now j = false := by
  simp [matchesClean, h]

/-- C6: `cleanQueue` at state `Completed`, `olderThan = 0`, `limit = 100`
removes exactly the completed jobs older than the cutoff — the removed count
is `min 100` of their number, a removed job was completed and old enough —
and keeps every other job unchanged and in order; in particular every
`Waiting`, `Active` or `Failed` job survives, as does the pause flag. -/
theorem c6_clean_exact (now : Nat) (q : QueueState) (j : Job) (hj : j ∈ q.jobs) :
    (cleanQueue .Completed 0 100 now q).2 =
      min 100 (q.jobs.countP (matchesClean .Completed 0 now)) ∧
    ((cleanQueue .Completed 0 100 now q).1).jobs.filter
        (fun k => ! matchesClean .Completed 0 now k) =
      q.jobs.filter (fun k => ! matchesClean .Completed 0 now k) ∧
    ((cleanQueue .Completed 0 100 now q).1).paused = q.paused ∧
    (∀ k, k ∈ ((cleanQueue .Completed 0 100 now q).1).jobs → k ∈ q.jobs) ∧
    (j ∉ ((cleanQueue .Completed 0 100 now q).1).jobs →
      j.state = .Completed ∧ j.finishedAt ≤ now) ∧
    (j.state = .Waiting ∨ j.state = .Active ∨ j.state = .Failed →
      j ∈ ((cleanQueue .Completed 0 100 now q).1).jobs) := by
  refine ⟨?_, ?_, rfl, ?_, ?_, ?_⟩
  · exact cleanRun_count .Completed 0 now q.jobs 100
  · exact cleanRun_filter .Completed 0 now q.jobs 100
  · intro k hk
    exact cleanRun_mem .Completed 0 now q.jobs 100 k hk
  · intro hnot
    have hm : matchesClean .Completed 0 now j = true := by
      by_contra hm
      exact hnot (cleanRun_keeps .Completed 0 now q.jobs 100 j hj
        (Bool.not_eq_true _ ▸ hm))
    have := hm
    simp [matchesClean] at this
    exact ⟨this.1, by omega⟩
  · intro hst
    refine cleanRun_keeps .Completed 0 now q.jobs 100 j hj (matchesClean_of_state_ne ?_)
    rcases hst with h | h | h <;> simp [h]

/-- Witness material for C6: a queue holding one old completed job and one
waiting job. -/
def sampleCompletedJob : Job :=
  { id := 10
    priority := 0
    availableAt := 0
    attemptsMade := 1
    maxAttempts := 1
    backoff := { type := BackoffType.fixed, baseDelay := 0 }
    state := .Completed
    createdAt := 0
    finishedAt := 2 }

def sampleWaitingJob : Job :=
  { id := 11
    priority := 0
    availableAt := 0
    attemptsMade := 0
    maxAttempts := 1
    backoff := { type := BackoffType.fixed, baseDelay := 0 }
    state := .Waiting
    createdAt := 0
    finishedAt := 0 }

def sampleCleanQueue : QueueState :=
  { paused := false, jobs := [sampleCompletedJob, sampleWaitingJob] }

theorem c6_clean_exact_witness :
    sampleWaitingJob ∈ sampleCleanQueue.jobs ∧
    sampleWaitingJob ∈ ((cleanQueue .Completed 0 100 5 sampleCleanQueue).1).jobs ∧
    (cleanQueue .Completed 0 100 5 sampleCleanQueue).2 =
      min 100 (sampleCleanQueue.jobs.countP (matchesClean .Completed 0 5)) :=
  ⟨by decide,
    (c6_clean_exact 5 sampleCleanQueue sampleWaitingJob (by decide)).2.2.2.2.2
      (Or.inl rfl),
    (c6_clean_exact 5 sampleCleanQueue sampleWaitingJob (by decide)).1⟩

/-! ## Scheduler ordering -/

/-- Modelled from the spec: the strict ordering of Waiting jobs — priority
ascending (lower value served first), FIFO by id on ties. -/
def better (a b : Job) : Bool :=
  decide (a.priority < b.priority) ||
    (a.priority == b.priority && decide (a.id < b.id))

/-- One fold step of next-eligible selection: keep the better Waiting job. -/
def pickBetter (acc : Option Job) (j : Job) : Option Job :=
  if j.state == JobState.Waiting then
    match acc with
    | none => some j
    | some b => if better j b then some j else some b
  else acc

/-- Modelled from the spec: the next-eligible `Waiting` job of a queue under
the ordering invariant. -/
def nextEligible (js : List Job) : Option Job := js.foldl pickBetter none

/-- Mark the job with the given id completed (the handler ran to success). -/
def markCompleted (id now : Nat) (js : List Job) : List Job :=
  js.map fun k =>
    if k.id == id then { k with state := JobState.Completed, finishedAt := now } else k

/-- Modelled from the spec: single-concurrency dispatch — repeatedly claim
the next eligible job and run it to completion, recording the order of job
ids dispatched. -/
def dispatchOrder (now : Nat) : Nat → List Job → List Nat
  | 0, _ => []
  | fuel + 1, js =>
      match nextEligible js with
      | none => []
      | some j => j.id :: dispatchOrder now fuel (markCompleted j.id now js)

/-- Job A of the ordering property: priority 1, enqueued first. -/
def jobA : Job :=
  { id := 1
    priority := 1
    availableAt := 0
    attemptsMade := 0
    maxAttempts := 1
    backoff := { type := BackoffType.fixed, baseDelay := 0 }
    state := .Waiting
    createdAt := 0
    finishedAt := 0 }

/-- Job B of the ordering property: priority 5, enqueued second. -/
def jobB : Job :=
  { id := 2
    priority := 5
    availableAt := 0
    attemptsMade := 0
    maxAttempts := 1
    backoff := { type := BackoffType.fixed, baseDelay := 0 }
    state := .Waiting
    createdAt := 1
    finishedAt := 0 }

/-- C7: the Waiting-job ordering is deterministic — any two jobs with
distinct ids are strictly comparable, one way only — and for A (priority 1)
and B (priority 5) enqueued in that order the single-concurrency dispatch
order is exactly A then B. -/
theorem c7_priority_fifo_order (a b : Job) (hab : a.id ≠ b.id) :
    (better a b = true ∨ better b a = true) ∧
    ¬ (better a b = true ∧ better b a = true) ∧
    nextEligible [jobA, jobB] = some jobA ∧
    dispatchOrder 9 2 [jobA, jobB] = [jobA.id, jobB.id] := by
  refine ⟨?_, ?_, by decide, by decide⟩
  · simp only [better, Bool.or_eq_true, Bool.and_eq_true, decide_eq_true_eq, beq_iff_eq]
    omega
  · simp only [better, Bool.or_eq_true, Bool.and_eq_true, decide_eq_true_eq, beq_iff_eq]
    omega

theorem c7_priority_fifo_order_witness :
    jobA.id ≠ jobB.id ∧ (better jobA jobB = true ∨ better jobB jobA = true) :=
  ⟨by decide, (c7_priority_fifo_order jobA jobB (by decide)).1⟩

end Bullmq
